import Mathlib

/-!
Verification of the isodraw isometric drawing tool against its specification.

The JavaScript sources are shallowly embedded: JS numbers are modelled as
exact rationals (`ℚ`), shapes and command objects as structures and inductive
types, and the stateful classes (`CommandManager`, the zustand drawing store,
the canvas mouse handlers) as explicit state-passing functions.  Arrays are
`List`s; JS `push`/`pop` at the end of an array is modelled either with
head-as-top lists (command manager stacks) or with append/`dropLast`
(the zustand store, which itself appends), as noted at each definition.
-/

namespace Isodraw

/-- A point in canvas (screen) space, `{x, y}` in the source. -/
structure Pt where
  x : ℚ
  y : ℚ
deriving DecidableEq

/-- JS `Math.round`: rounds half-up (toward +infinity), i.e. `⌊q + 1/2⌋`. -/
def jsRound (q : ℚ) : ℤ := ⌊q + 1/2⌋

/-- Projection configuration of `IsometricDrawingTool` / `CanvasEngine`:
`originX/originY` are the canvas centre (400, 300 for the 800x600 canvas);
`isoWidth = gridSize * cos(30°)` and `isoHeight = gridSize * sin(30°)` with
`gridSize = 30`.  The widths are irrational reals in the source, so they are
kept as parameters here; every theorem about the transform holds for every
nonzero choice. -/
structure IsoConfig where
  originX : ℚ
  originY : ℚ
  isoWidth : ℚ
  isoHeight : ℚ

/-- `gridToScreen(gridX, gridY)` from `script.js` / `CanvasEngine.js`:
`screenX = originX + (gridX - gridY) * isoWidth`,
`screenY = originY + (gridX + gridY) * isoHeight`. -/
def gridToScreen (cfg : IsoConfig) (gridX gridY : ℤ) : Pt :=
  { x := cfg.originX + (gridX - gridY) * cfg.isoWidth
    y := cfg.originY + (gridX + gridY) * cfg.isoHeight }

/-- `screenToNearestGridPoint(canvasX, canvasY)` from `script.js` /
`CanvasEngine.js`: solves the linear system of the projection and then
rounds each axis with `Math.round`. -/
def screenToNearestGridPoint (cfg : IsoConfig) (canvasX canvasY : ℚ) : ℤ × ℤ :=
  let relX := canvasX - cfg.originX
  let relY := canvasY - cfg.originY
  (jsRound ((relX / cfg.isoWidth + relY / cfg.isoHeight) / 2),
   jsRound ((relY / cfg.isoHeight - relX / cfg.isoWidth) / 2))

/-- A shape: `{ id, points, color }` as stored in `this.shapes` in `script.js`
and in the zustand store. -/
structure Shape where
  id : ℕ
  points : List Pt
  color : String
deriving DecidableEq

/-- The ids of a list of shapes, in order. -/
def shapeIds (shapes : List Shape) : List ℕ := shapes.map Shape.id

/-- JS `array.splice(i, 1)`: remove the element at index `i` (no-op when
out of range). -/
def removeAt : List Shape → ℕ → List Shape
  | [], _ => []
  | _ :: l, 0 => l
  | a :: l, n + 1 => a :: removeAt l n

/-- JS `array.splice(i, 0, a)`: insert `a` at index `i`, clamping to the end
when `i` exceeds the length. -/
def jsInsertAt : ℕ → Shape → List Shape → List Shape
  | _, sh, [] => [sh]
  | 0, sh, l => sh :: l
  | n + 1, sh, a :: l => a :: jsInsertAt n sh l

/-- JS `if (arr[i]) { mutate arr[i] }`: apply `f` at index `i`, no-op when out
of range. -/
def modifyAt : List α → ℕ → (α → α) → List α
  | [], _, _ => []
  | a :: l, 0, f => f a :: l
  | a :: l, n + 1, f => a :: modifyAt l n f

/-- JS `const i = arr.findIndex(s => s.id === id); if (i > -1) arr.splice(i, 1)`:
remove the first shape with the given id, no-op when absent. -/
def removeFirstById : List Shape → ℕ → List Shape
  | [], _ => []
  | s :: rest, i => if s.id = i then rest else s :: removeFirstById rest i

/-- The six concrete command classes of `script.js`, with the data each
constructor captures:

* `AddShapeCommand` captures the shape (its id assigned by `getNextShapeId`
  on first execution);
* `DeleteShapeCommand` captures the index at deletion time and a deep copy
  of the deleted shape;
* `FillShapeCommand` captures the index, old color, and new color;
* `EditShapePointCommand` captures shape index, point index, old and new point;
* `ClearAllCommand` captures a copy of all shapes;
* `ImportShapesCommand` captures the imported shapes with freshly assigned ids. -/
inductive Cmd where
  | addShape (shapeData : Shape)
  | deleteShape (shapeIndex : ℕ) (deletedShape : Shape)
  | fillShape (shapeIndex : ℕ) (oldColor newColor : String)
  | editShapePoint (shapeIndex pointIndex : ℕ) (oldPoint newPoint : Pt)
  | clearAll (originalShapes : List Shape)
  | importShapes (shapesToAdd : List Shape)
deriving DecidableEq

/-- One step of `ImportShapesCommand.execute`: push the shape unless a shape
with its id already exists. -/
def importStep (acc : List Shape) (sh : Shape) : List Shape :=
  if acc.any (fun e => e.id = sh.id) then acc else acc ++ [sh]

/-- `command.execute()` for each command class in `script.js`, acting on the
`shapes` array (palette side effects are outside the shape collection). -/
def applyCmd : Cmd → List Shape → List Shape
  | .addShape sh, shapes => shapes ++ [sh]
  | .deleteShape i _, shapes => if i < shapes.length then removeAt shapes i else shapes
  | .fillShape i _ newColor, shapes =>
      modifyAt shapes i (fun sh => { sh with color := newColor })
  | .editShapePoint i j _ newPoint, shapes =>
      modifyAt shapes i (fun sh => { sh with points := modifyAt sh.points j (fun _ => newPoint) })
  | .clearAll _, _ => []
  | .importShapes batch, shapes => batch.foldl importStep shapes

/-- `command.undo()` for each command class in `script.js`:
`AddShapeCommand.undo` removes by id; `DeleteShapeCommand.undo` splices the
captured shape back at the captured index; `ClearAllCommand.undo` restores the
captured copy; `ImportShapesCommand.undo` removes each imported id. -/
def undoCmd : Cmd → List Shape → List Shape
  | .addShape sh, shapes => removeFirstById shapes sh.id
  | .deleteShape i sh, shapes => jsInsertAt i sh shapes
  | .fillShape i oldColor _, shapes =>
      modifyAt shapes i (fun sh => { sh with color := oldColor })
  | .editShapePoint i j oldPoint _, shapes =>
      modifyAt shapes i (fun sh => { sh with points := modifyAt sh.points j (fun _ => oldPoint) })
  | .clearAll orig, _ => orig
  | .importShapes batch, shapes => batch.foldl (fun acc sh => removeFirstById acc sh.id) shapes

/-- The capture discipline of the call sites in `script.js`: what must hold of
the current `shapes` array for a command object to carry the data its
constructor would actually have captured there (`DeleteShapeCommand` is built
from the hit shape and its index, `FillShapeCommand` from the shape's current
color, `EditShapePointCommand` from the point being dragged, `ClearAllCommand`
from a deep copy of all shapes, ids from `getNextShapeId` are fresh). -/
def Valid : Cmd → List Shape → Prop
  | .addShape sh, shapes => sh.id ∉ shapeIds shapes
  | .deleteShape i sh, shapes => shapes[i]? = some sh
  | .fillShape i oldColor _, shapes => (shapes[i]?).map Shape.color = some oldColor
  | .editShapePoint i j oldPoint _, shapes =>
      ((shapes[i]?).bind (fun sh => sh.points[j]?)) = some oldPoint
  | .clearAll orig, shapes => orig = shapes
  | .importShapes batch, shapes =>
      (shapeIds batch).Nodup ∧ ∀ sh ∈ batch, sh.id ∉ shapeIds shapes

instance decValid : (c : Cmd) → (s : List Shape) → Decidable (Valid c s) := by
  intro c s
  cases c <;> simp only [Valid] <;> infer_instance

/-- The `CommandManager` state: the shapes array of the owning tool and the
two history stacks.  JS arrays pushed/popped at the end are modelled with
head-as-top lists (`push` = `cons`, `pop` = take the head). -/
structure HistState where
  shapes : List Shape
  undoStack : List Cmd
  redoStack : List Cmd
deriving DecidableEq

/-- `CommandManager.execute(command)`: run the command, push it on the undo
stack, clear the redo stack. -/
def cmExecute (c : Cmd) (h : HistState) : HistState :=
  { shapes := applyCmd c h.shapes
    undoStack := c :: h.undoStack
    redoStack := [] }

/-- `CommandManager.undo()`: no-op when the undo stack is empty; otherwise pop
the top command, run its `undo()`, and push it on the redo stack. -/
def cmUndo (h : HistState) : HistState :=
  match h.undoStack with
  | [] => h
  | c :: rest =>
      { shapes := undoCmd c h.shapes
        undoStack := rest
        redoStack := c :: h.redoStack }

/-- `CommandManager.redo()`: no-op when the redo stack is empty; otherwise pop
the top command, re-run its `execute()`, and push it on the undo stack. -/
def cmRedo (h : HistState) : HistState :=
  match h.redoStack with
  | [] => h
  | c :: rest =>
      { shapes := applyCmd c h.shapes
        undoStack := c :: h.undoStack
        redoStack := rest }

/-- Executing a list of commands in order through the command manager. -/
def execSeq (cs : List Cmd) (h : HistState) : HistState :=
  cs.foldl (fun st c => cmExecute c st) h

/-- Applying a list of commands directly to a shapes array. -/
def applySeq (cs : List Cmd) (s : List Shape) : List Shape :=
  cs.foldl (fun st c => applyCmd c st) s

/-- `n` consecutive calls to `CommandManager.undo()`. -/
def undoN : ℕ → HistState → HistState
  | 0, h => h
  | n + 1, h => cmUndo (undoN n h)

/-- Each command of the list carries the data its call site would have
captured in the state it executes against. -/
def ValidSeq : List Cmd → List Shape → Prop
  | [], _ => True
  | c :: cs, s => Valid c s ∧ ValidSeq cs (applyCmd c s)

instance decValidSeq : (cs : List Cmd) → (s : List Shape) → Decidable (ValidSeq cs s)
  | [], _ => isTrue trivial
  | c :: cs, s => by
      simp only [ValidSeq]
      exact @instDecidableAnd _ _ (decValid c s) (decValidSeq cs (applyCmd c s))

/-- A one-shape starting store used by concrete witnesses. -/
def demoShapes : List Shape := [⟨1, [], "#000000"⟩]

/-- A mixed five-command sequence (add, fill, delete, import, clear) that is
valid over `demoShapes`. -/
def demoCmds : List Cmd :=
  [Cmd.addShape ⟨2, [⟨1, 2⟩], "#ff0000"⟩,
   Cmd.fillShape 0 "#000000" "#00ff00",
   Cmd.deleteShape 1 ⟨2, [⟨1, 2⟩], "#ff0000"⟩,
   Cmd.importShapes [⟨3, [], "#0000ff"⟩, ⟨4, [], "#123456"⟩],
   Cmd.clearAll [⟨1, [], "#00ff00"⟩, ⟨3, [], "#0000ff"⟩, ⟨4, [], "#123456"⟩]]

/-- The undo/redo action records of the zustand `drawingStore`
(`{ type, payload }` objects). -/
inductive UndoAction where
  | addShapeA (shape : Shape)
  | deleteShapeA (shapeId : ℕ)
  | fillShapeA (shapeId : ℕ) (color : String)
  | editShapePointA (shapeIndex pointIndex : ℕ) (point : Pt)
  | importShapesA (shapes : List Shape)
  | deleteMultipleA (shapeIds : List ℕ)
deriving DecidableEq

/-- The zustand `drawingStore` state, restricted to the fields the modelled
actions read or write (`activeTool`, `currentDrawing`, `selection`,
`snapPoint`, `currentColor` and `shapeIdCounter` are untouched by
`deleteShape`/`fillShape`/`undo`).  The store pushes history entries with
`[...stack, action]` and pops with `slice(0, -1)`, so the stacks here are
most-recent-LAST lists. -/
structure StoreState where
  shapes : List Shape
  paletteColors : List String
  undoStack : List UndoAction
  redoStack : List UndoAction
deriving DecidableEq

/-- `addPaletteColor(color)` from the drawing store: move-to-end-or-insert,
then evict the oldest entry beyond 10. -/
def storeAddPaletteColor (color : String) (st : StoreState) : StoreState :=
  let newPalette := (st.paletteColors.erase color) ++ [color]
  { st with paletteColors := if newPalette.length > 10 then newPalette.tail else newPalette }

/-- `deleteShape(shapeId)` from the drawing store: no-op when no shape has the
id; otherwise record an `ADD_SHAPE` undo action carrying a copy of the shape,
filter it out, and clear the redo stack. -/
def storeDeleteShape (shapeId : ℕ) (st : StoreState) : StoreState :=
  match st.shapes.find? (fun s => s.id == shapeId) with
  | none => st
  | some shapeToDelete =>
      { st with
          shapes := st.shapes.filter (fun s => !(s.id == shapeId))
          undoStack := st.undoStack ++ [.addShapeA shapeToDelete]
          redoStack := [] }

/-- `fillShape(shapeId, newColor)` from the drawing store: no-op when no shape
has the id or the shape already has the requested color; otherwise record a
`FILL_SHAPE` undo action with the old color, recolor by id, clear the redo
stack, and touch the palette. -/
def storeFillShape (shapeId : ℕ) (newColor : String) (st : StoreState) : StoreState :=
  match st.shapes.find? (fun s => s.id == shapeId) with
  | none => st
  | some shapeToFill =>
      if shapeToFill.color = newColor then st
      else
        storeAddPaletteColor newColor
          { st with
              shapes := st.shapes.map
                (fun s => if s.id == shapeId then { s with color := newColor } else s)
              undoStack := st.undoStack ++ [.fillShapeA shapeId shapeToFill.color]
              redoStack := [] }

/-- `undo()` from the drawing store: no-op on an empty undo stack; otherwise
pop the last action, apply its inverse to a copy of the shapes, and append the
action (possibly rewritten with current data, as the source does per case) to
the redo stack.  In the `EDIT_SHAPE_POINT` case with a missing point index the
source would throw inside `deepCopy(undefined)`; that unreachable corner is
modelled as the generic no-op branch. -/
def storeUndo (st : StoreState) : StoreState :=
  match st.undoStack.getLast? with
  | none => st
  | some lastAction =>
      let newUndoStack := st.undoStack.dropLast
      let pushed := st.redoStack ++ [lastAction]
      match lastAction with
      | .deleteShapeA shapeId =>
          match st.shapes.find? (fun s => s.id == shapeId) with
          | some shapeToRestore =>
              { st with
                  shapes := st.shapes.filter (fun s => !(s.id == shapeId))
                  undoStack := newUndoStack
                  redoStack := st.redoStack ++ [.addShapeA shapeToRestore] }
          | none => { st with undoStack := newUndoStack, redoStack := pushed }
      | .addShapeA shape =>
          { storeAddPaletteColor shape.color st with
              shapes := st.shapes ++ [shape]
              undoStack := newUndoStack
              redoStack := pushed }
      | .fillShapeA shapeId color =>
          match st.shapes.find? (fun s => s.id == shapeId) with
          | some shapeToUpdate =>
              { st with
                  shapes := st.shapes.map
                    (fun s => if s.id == shapeId then { s with color := color } else s)
                  undoStack := newUndoStack
                  redoStack := st.redoStack ++ [.fillShapeA shapeId shapeToUpdate.color] }
          | none => { st with undoStack := newUndoStack, redoStack := pushed }
      | .editShapePointA shapeIndex pointIndex point =>
          match st.shapes[shapeIndex]? with
          | some shapeToUpdate =>
              match shapeToUpdate.points[pointIndex]? with
              | some oldPoint =>
                  { st with
                      shapes := modifyAt st.shapes shapeIndex
                        (fun s => { s with points := modifyAt s.points pointIndex (fun _ => point) })
                      undoStack := newUndoStack
                      redoStack := st.redoStack ++ [.editShapePointA shapeIndex pointIndex oldPoint] }
              | none => { st with undoStack := newUndoStack, redoStack := pushed }
          | none => { st with undoStack := newUndoStack, redoStack := pushed }
      | .importShapesA shapesToRestore =>
          { (shapesToRestore.foldl (fun acc s => storeAddPaletteColor s.color acc) st) with
              shapes := st.shapes ++ shapesToRestore
              undoStack := newUndoStack
              redoStack := st.redoStack ++ [.deleteMultipleA (shapeIds shapesToRestore)] }
      | .deleteMultipleA ids =>
          { st with
              shapes := st.shapes.filter (fun s => !(ids.contains s.id))
              undoStack := newUndoStack
              redoStack := st.redoStack ++
                [.importShapesA (st.shapes.filter (fun s => ids.contains s.id))] }

/-- The body of the ray-casting loop in `isPointInPolygon` (`script.js` /
`CanvasEngine.js`): a crossing is registered when the edge strictly straddles
the horizontal line through the query point and the ray to the right of `x`
meets it; thanks to `&&` short-circuiting, the division by `yj - yi` is only
reached under the straddle guard. -/
def edgeTest (x y xi yi xj yj : ℚ) : Bool :=
  (decide (yi > y) != decide (yj > y)) &&
    decide (x < (xj - xi) * (y - yi) / (yj - yi) + xi)

/-- `isPointInPolygon(point, polygon)`: the ray-casting loop
`for (let i = 0, j = polygon.length - 1; i < polygon.length; j = i++)`,
toggling `inside` on each registered crossing. -/
def isPointInPolygon (p : Pt) (polygon : List Pt) : Bool :=
  (List.range polygon.length).foldl
    (fun inside i =>
      let pti := polygon.getD i ⟨0, 0⟩
      let ptj := polygon.getD ((i + polygon.length - 1) % polygon.length) ⟨0, 0⟩
      if edgeTest p.x p.y pti.x pti.y ptj.x ptj.y then !inside else inside)
    false

/-- The reverse-order scan of the fill branch of `handleMouseDown`: topmost
(drawn last) shape with more than two points containing the click. -/
def findTopmostFill (shapes : List Shape) (p : Pt) : Option Shape :=
  shapes.reverse.find?
    (fun sh => decide (sh.points.length > 2) && isPointInPolygon p sh.points)

/-- The reverse-order scan of the delete branch of `handleMouseDown` (and of
the fill/delete cases in `CanvasEngine.handleMouseDown`), which has no
explicit length guard. -/
def findTopmostDelete (shapes : List Shape) (p : Pt) : Option Shape :=
  shapes.reverse.find? (fun sh => isPointInPolygon p sh.points)

/-- `this.dragPointRadius` (8, the clickable radius around points). -/
def dragPointRadius : ℚ := 8

/-- `(this.dragPointRadius * 1.5) ** 2`, the squared closing tolerance. -/
def closeToleranceSq : ℚ := (dragPointRadius * (3 / 2)) ^ 2

/-- The inner loop of the edit branch of `handleMouseDown`: the first point
index of the shape whose squared distance to the click is below
`dragPointRadius * dragPointRadius`. -/
def pointHitIdx (points : List Pt) (p : Pt) : Option ℕ :=
  (List.range points.length).find? (fun j =>
    decide ((p.x - (points.getD j ⟨0, 0⟩).x) * (p.x - (points.getD j ⟨0, 0⟩).x) +
      (p.y - (points.getD j ⟨0, 0⟩).y) * (p.y - (points.getD j ⟨0, 0⟩).y)
      < dragPointRadius * dragPointRadius))

/-- The edit branch of `handleMouseDown` (and the edit case of
`CanvasEngine.handleMouseDown`): scan shapes in reverse insertion order for
the first shape with a point within `dragPointRadius` of the click, returning
that shape and the point index; `isPointInPolygon` is not consulted. -/
def findEditHit (shapes : List Shape) (p : Pt) : Option (Shape × ℕ) :=
  shapes.reverse.findSome?
    (fun sh => (pointHitIdx sh.points p).map (fun j => (sh, j)))

/-- The drawing-gesture state of `IsometricDrawingTool`: `isDrawing` and
`currentShapePoints`. -/
structure DrawState where
  isDrawing : Bool
  currentShapePoints : List Pt
deriving DecidableEq

/-- What a drawing-branch click emits: nothing, or an executed
`AddShapeCommand` with the given point list and color. -/
inductive DrawEffect where
  | noEffect
  | addShape (points : List Pt) (color : String)
deriving DecidableEq

/-- The drawing branch of `IsometricDrawingTool.handleMouseDown`, taking the
already-snapped click position `clickedScreenPos`: start a shape when idle;
otherwise close it (emitting the placed points, excluding the closing click)
when the click is within the closing tolerance of the start point and at
least three points are placed, else append the click when it differs from the
last point. -/
def handleDrawClick (color : String) (st : DrawState) (clickedScreenPos : Pt) :
    DrawState × DrawEffect :=
  if !st.isDrawing then
    ({ isDrawing := true, currentShapePoints := [clickedScreenPos] }, .noEffect)
  else
    let startPoint := st.currentShapePoints.headD ⟨0, 0⟩
    let lastPoint := st.currentShapePoints.getLastD ⟨0, 0⟩
    let dx := clickedScreenPos.x - startPoint.x
    let dy := clickedScreenPos.y - startPoint.y
    let isClosing := decide (dx * dx + dy * dy < closeToleranceSq) &&
      decide (st.currentShapePoints.length ≥ 3)
    if isClosing then
      ({ isDrawing := false, currentShapePoints := [] },
       .addShape st.currentShapePoints color)
    else
      if clickedScreenPos.x ≠ lastPoint.x ∨ clickedScreenPos.y ≠ lastPoint.y then
        ({ st with currentShapePoints := st.currentShapePoints ++ [clickedScreenPos] },
         .noEffect)
      else (st, .noEffect)

/-- A `polygon`/`polyline` element as `parseSVGContent` sees it: the values of
its `points`, `fill` and `stroke` attributes (`none` = attribute absent).  The
`DOMParser`/`querySelectorAll` steps that produce the element list are
external browser APIs. -/
structure SvgElement where
  pointsAttr : Option String
  fillAttr : Option String
  strokeAttr : Option String
deriving DecidableEq

/-- A parsed shape `{ points, color }`; ids are assigned later by
`ImportShapesCommand`. -/
structure ParsedShape where
  points : List Pt
  color : String
deriving DecidableEq

/-- JS `a || b` where `a` is a `getAttribute` result: both `null` and the
empty string are falsy. -/
def attrOr (a : Option String) (b : String) : String :=
  match a with
  | some s => if s = "" then b else s
  | none => b

/-- `el.getAttribute("fill") || el.getAttribute("stroke") || "#000000"`. -/
def elementColor (el : SvgElement) : String :=
  attrOr el.fillAttr (attrOr el.strokeAttr "#000000")

def splitWsAux : List Char → List Char → List String
  | [], acc => if acc.isEmpty then [] else [String.mk acc.reverse]
  | c :: cs, acc =>
      if c.isWhitespace then
        if acc.isEmpty then splitWsAux cs []
        else String.mk acc.reverse :: splitWsAux cs []
      else splitWsAux cs (c :: acc)

/-- JS `str.split(/\s+/)` on a trimmed string: maximal runs of non-whitespace
characters. -/
def jsSplitWhitespace (s : String) : List String := splitWsAux s.data []

def splitCommaAux : List Char → List Char → List String
  | [], acc => [String.mk acc.reverse]
  | c :: cs, acc =>
      if c = ',' then String.mk acc.reverse :: splitCommaAux cs []
      else splitCommaAux cs (c :: acc)

/-- JS `str.split(",")` (keeps empty components). -/
def jsSplitComma (s : String) : List String := splitCommaAux s.data []

/-- JS `String.prototype.trim`. -/
def jsTrim (s : String) : String :=
  String.mk (((s.data.dropWhile Char.isWhitespace).reverse.dropWhile
    Char.isWhitespace).reverse)

/-- One `"x,y"` token of the `points` attribute: split at commas, run
`parseFloat` on the first two components (modelled by the parameter `pf`,
with `none` standing for NaN; a missing second component parses to NaN in the
source), and snap the kept point through the grid round-trip
`gridToScreen(screenToNearestGridPoint(x, y))`. -/
def parsePairPoint (pf : String → Option ℚ) (cfg : IsoConfig) (pair : String) :
    Option Pt :=
  let parts := jsSplitComma pair
  match pf (parts.getD 0 ""), pf (parts.getD 1 "") with
  | some x, some y =>
      let gridPos := screenToNearestGridPoint cfg x y
      some (gridToScreen cfg gridPos.1 gridPos.2)
  | _, _ => none

/-- `parseSVGContent` per element: skip the element when the `points`
attribute is absent or trims to the empty string; take the color from `fill`,
then `stroke`, then default black; parse and snap the point tokens, dropping
invalid ones; keep the shape only when more than one valid point survives. -/
def parseSVGShape (pf : String → Option ℚ) (cfg : IsoConfig) (el : SvgElement) :
    Option ParsedShape :=
  match el.pointsAttr with
  | none => none
  | some raw =>
      let pointsString := jsTrim raw
      if pointsString.data = [] then none
      else
        let points := (jsSplitWhitespace pointsString).filterMap (parsePairPoint pf cfg)
        if points.length > 1 then some ⟨points, elementColor el⟩ else none

/-- `parseSVGContent(svgContent)` over the scanned element list: collect the
surviving shapes; always returns a (possibly empty) list. -/
def parseSVGContent (pf : String → Option ℚ) (cfg : IsoConfig)
    (els : List SvgElement) : List ParsedShape :=
  els.filterMap (parseSVGShape pf cfg)

theorem jsRound_intCast (n : ℤ) : jsRound (n : ℚ) = n := by
  unfold jsRound
  rw [add_comm, Int.floor_add_int]
  norm_num

/-- Claim C1: for every pair of integer grid coordinates, `gridToScreen`
followed by `screenToNearestGridPoint` returns exactly the original pair,
for every configuration with nonzero iso widths. -/
theorem grid_roundtrip (cfg : IsoConfig) (hW : cfg.isoWidth ≠ 0)
    (hH : cfg.isoHeight ≠ 0) (gx gy : ℤ) :
    screenToNearestGridPoint cfg (gridToScreen cfg gx gy).x
      (gridToScreen cfg gx gy).y = (gx, gy) := by
  unfold screenToNearestGridPoint gridToScreen
  have e1 : ((cfg.originX + ((gx : ℚ) - gy) * cfg.isoWidth - cfg.originX) / cfg.isoWidth
      + (cfg.originY + ((gx : ℚ) + gy) * cfg.isoHeight - cfg.originY) / cfg.isoHeight) / 2
      = ((gx : ℚ)) := by
    field_simp
  have e2 : ((cfg.originY + ((gx : ℚ) + gy) * cfg.isoHeight - cfg.originY) / cfg.isoHeight
      - (cfg.originX + ((gx : ℚ) - gy) * cfg.isoWidth - cfg.originX) / cfg.isoWidth) / 2
      = ((gy : ℚ)) := by
    field_simp
  simp only
  rw [e1, e2, jsRound_intCast, jsRound_intCast]

/-- Witness for C1 at a concrete configuration and grid point. -/
theorem grid_roundtrip_witness :
    screenToNearestGridPoint ⟨400, 300, 26, 15⟩
      (gridToScreen ⟨400, 300, 26, 15⟩ 2 (-3)).x
      (gridToScreen ⟨400, 300, 26, 15⟩ 2 (-3)).y = (2, -3) :=
  grid_roundtrip ⟨400, 300, 26, 15⟩ (by norm_num) (by norm_num) 2 (-3)

theorem getElem?_some_imp_lt :
    ∀ (l : List Shape) (i : ℕ) (sh : Shape), l[i]? = some sh → i < l.length := by
  intro l
  induction l with
  | nil => intro i sh h; simp at h
  | cons a t ih =>
      intro i sh h
      cases i with
      | zero => simp
      | succ n =>
          simp only [List.getElem?_cons_succ] at h
          simpa using ih n sh h

theorem jsInsertAt_zero (sh : Shape) (l : List Shape) :
    jsInsertAt 0 sh l = sh :: l := by
  cases l <;> rfl

theorem insert_remove_roundtrip :
    ∀ (l : List Shape) (i : ℕ) (sh : Shape), l[i]? = some sh →
      jsInsertAt i sh (removeAt l i) = l := by
  intro l
  induction l with
  | nil => intro i sh h; simp at h
  | cons a t ih =>
      intro i sh h
      cases i with
      | zero =>
          simp only [List.getElem?_cons_zero, Option.some_inj] at h
          subst h
          rw [removeAt, jsInsertAt_zero]
      | succ n =>
          simp only [List.getElem?_cons_succ] at h
          cases ht : removeAt t n with
          | nil => rw [removeAt, ht, jsInsertAt, ← ht, ih n sh h]
          | cons b u => rw [removeAt, ht, jsInsertAt, ← ht, ih n sh h]

theorem removeFirstById_append_fresh (shapes : List Shape) (sh : Shape)
    (h : sh.id ∉ shapeIds shapes) :
    removeFirstById (shapes ++ [sh]) sh.id = shapes := by
  induction shapes with
  | nil => simp [removeFirstById]
  | cons a l ih =>
      simp only [shapeIds, List.map_cons, List.mem_cons, not_or] at h
      simp only [List.cons_append, removeFirstById, List.append_eq]
      rw [if_neg (fun hc => h.1 hc.symm), ih (by simpa [shapeIds] using h.2)]

theorem modifyAt_modifyAt (l : List α) (i : ℕ) (f g : α → α) :
    modifyAt (modifyAt l i f) i g = modifyAt l i (fun a => g (f a)) := by
  induction l generalizing i with
  | nil => rfl
  | cons a t ih =>
      cases i with
      | zero => rfl
      | succ n => simp only [modifyAt, List.cons.injEq, true_and]; exact ih n

theorem modifyAt_eq_self :
    ∀ (l : List α) (i : ℕ) (f : α → α) (a : α), l[i]? = some a → f a = a →
      modifyAt l i f = l := by
  intro l
  induction l with
  | nil => intro i f a h _; simp at h
  | cons b t ih =>
      intro i f a h hf
      cases i with
      | zero =>
          simp only [List.getElem?_cons_zero, Option.some_inj] at h
          subst h
          simp [modifyAt, hf]
      | succ n =>
          simp only [List.getElem?_cons_succ] at h
          simp [modifyAt, ih n f a h hf]

theorem shapeIds_append (l1 l2 : List Shape) :
    shapeIds (l1 ++ l2) = shapeIds l1 ++ shapeIds l2 := by
  simp [shapeIds]

theorem importStep_of_mem (acc : List Shape) (sh : Shape)
    (h : sh.id ∈ shapeIds acc) : importStep acc sh = acc := by
  unfold importStep
  rw [if_pos]
  simp only [shapeIds, List.mem_map] at h
  obtain ⟨e, he, heq⟩ := h
  simp only [List.any_eq_true, decide_eq_true_eq]
  exact ⟨e, he, heq⟩

theorem importStep_of_fresh (acc : List Shape) (sh : Shape)
    (h : sh.id ∉ shapeIds acc) : importStep acc sh = acc ++ [sh] := by
  unfold importStep
  rw [if_neg]
  intro hc
  simp only [List.any_eq_true, decide_eq_true_eq] at hc
  obtain ⟨e, he, heq⟩ := hc
  exact h (by simp only [shapeIds, List.mem_map]; exact ⟨e, he, heq⟩)

theorem mem_shapeIds_importStep (acc : List Shape) (sh : Shape) (a : ℕ)
    (h : a ∈ shapeIds acc) : a ∈ shapeIds (importStep acc sh) := by
  unfold importStep
  split
  · exact h
  · rw [shapeIds_append]; exact List.mem_append_left _ h

theorem id_mem_importStep (acc : List Shape) (sh : Shape) :
    sh.id ∈ shapeIds (importStep acc sh) := by
  unfold importStep
  split
  · rename_i hany
    simp only [List.any_eq_true, decide_eq_true_eq] at hany
    obtain ⟨e, he, heq⟩ := hany
    simp only [shapeIds, List.mem_map]
    exact ⟨e, he, heq⟩
  · rw [shapeIds_append]
    simp [shapeIds]

theorem mem_shapeIds_foldl_importStep :
    ∀ (batch : List Shape) (acc : List Shape) (a : ℕ), a ∈ shapeIds acc →
      a ∈ shapeIds (batch.foldl importStep acc) := by
  intro batch
  induction batch with
  | nil => intro acc a h; exact h
  | cons b rest ih =>
      intro acc a h
      exact ih (importStep acc b) a (mem_shapeIds_importStep acc b a h)

theorem batch_ids_mem_foldl :
    ∀ (batch : List Shape) (acc : List Shape) (sh : Shape), sh ∈ batch →
      sh.id ∈ shapeIds (batch.foldl importStep acc) := by
  intro batch
  induction batch with
  | nil => intro acc sh h; simp at h
  | cons b rest ih =>
      intro acc sh h
      rcases List.mem_cons.mp h with h | h
      · subst h
        exact mem_shapeIds_foldl_importStep rest (importStep acc sh) sh.id
          (id_mem_importStep acc sh)
      · exact ih (importStep acc b) sh h

theorem foldl_importStep_noop :
    ∀ (batch : List Shape) (acc : List Shape),
      (∀ sh ∈ batch, sh.id ∈ shapeIds acc) → batch.foldl importStep acc = acc := by
  intro batch
  induction batch with
  | nil => intro acc _; rfl
  | cons b rest ih =>
      intro acc h
      rw [List.foldl_cons, importStep_of_mem acc b (h b (by simp))]
      exact ih acc (fun sh hm => h sh (by simp [hm]))

theorem foldl_importStep_fresh :
    ∀ (batch : List Shape) (s : List Shape), (shapeIds batch).Nodup →
      (∀ sh ∈ batch, sh.id ∉ shapeIds s) →
      batch.foldl importStep s = s ++ batch := by
  intro batch
  induction batch with
  | nil => intro s _ _; simp
  | cons b rest ih =>
      intro s hnd hfresh
      simp only [shapeIds, List.map_cons, List.nodup_cons] at hnd
      rw [List.foldl_cons, importStep_of_fresh s b (hfresh b (by simp))]
      rw [ih (s ++ [b]) hnd.2]
      · simp
      · intro sh hm
        rw [shapeIds_append]
        simp only [List.mem_append, not_or]
        refine ⟨hfresh sh (by simp [hm]), ?_⟩
        simp only [shapeIds, List.map_cons, List.map_nil, List.mem_singleton]
        intro hc
        exact hnd.1 (hc ▸ List.mem_map.mpr ⟨sh, hm, rfl⟩)

theorem removeFirstById_append_cons (s : List Shape) (b : Shape)
    (rest : List Shape) (h : b.id ∉ shapeIds s) :
    removeFirstById (s ++ b :: rest) b.id = s ++ rest := by
  induction s with
  | nil => simp [removeFirstById]
  | cons a l ih =>
      simp only [shapeIds, List.map_cons, List.mem_cons, not_or] at h
      simp only [List.cons_append, removeFirstById, List.append_eq]
      rw [if_neg (fun hc => h.1 hc.symm), ih (by simpa [shapeIds] using h.2)]

theorem foldl_remove_batch :
    ∀ (batch : List Shape) (s : List Shape),
      (∀ sh ∈ batch, sh.id ∉ shapeIds s) →
      batch.foldl (fun acc sh => removeFirstById acc sh.id) (s ++ batch) = s := by
  intro batch
  induction batch with
  | nil => intro s _; simp
  | cons b rest ih =>
      intro s hfresh
      rw [List.foldl_cons,
        removeFirstById_append_cons s b rest (hfresh b (by simp))]
      exact ih s (fun sh hm => hfresh sh (by simp [hm]))

/-- For a command carrying the data its call site would have captured,
`undo` after `execute` restores the shapes array exactly. -/
theorem cmd_roundtrip (c : Cmd) (s : List Shape) (h : Valid c s) :
    undoCmd c (applyCmd c s) = s := by
  cases c with
  | addShape sh => exact removeFirstById_append_fresh s sh h
  | deleteShape i sh =>
      have hlt : i < s.length := getElem?_some_imp_lt s i sh h
      simp only [applyCmd, undoCmd, if_pos hlt]
      exact insert_remove_roundtrip s i sh h
  | fillShape i oldColor newColor =>
      obtain ⟨sh0, hget, hcol⟩ := Option.map_eq_some'.mp h
      simp only [applyCmd, undoCmd, modifyAt_modifyAt]
      refine modifyAt_eq_self s i _ sh0 hget ?_
      rw [← hcol]
  | editShapePoint i j oldPoint newPoint =>
      obtain ⟨sh0, hget, hpt⟩ := Option.bind_eq_some.mp h
      simp only [applyCmd, undoCmd, modifyAt_modifyAt]
      refine modifyAt_eq_self s i _ sh0 hget ?_
      rw [modifyAt_eq_self sh0.points j _ oldPoint hpt rfl]
  | clearAll orig =>
      simpa [applyCmd, undoCmd] using h
  | importShapes batch =>
      obtain ⟨hnd, hfresh⟩ := h
      simp only [applyCmd, undoCmd]
      rw [foldl_importStep_fresh batch s hnd hfresh]
      exact foldl_remove_batch batch s hfresh

theorem execSeq_spec :
    ∀ (cs : List Cmd) (h : HistState), ∃ rs,
      execSeq cs h = ⟨applySeq cs h.shapes, cs.reverse ++ h.undoStack, rs⟩ := by
  intro cs
  induction cs with
  | nil => intro h; exact ⟨h.redoStack, rfl⟩
  | cons c cs ih =>
      intro h
      obtain ⟨rs, hrs⟩ := ih (cmExecute c h)
      refine ⟨rs, ?_⟩
      show execSeq cs (cmExecute c h) = _
      rw [hrs]
      simp [cmExecute, applySeq]

theorem undoN_rewind :
    ∀ (cs : List Cmd) (s : List Shape) (us rs : List Cmd), ValidSeq cs s →
      undoN cs.length ⟨applySeq cs s, cs.reverse ++ us, rs⟩ = ⟨s, us, cs ++ rs⟩ := by
  intro cs
  induction cs with
  | nil => intro s us rs _; simp [undoN, applySeq]
  | cons c cs ih =>
      intro s us rs hv
      have h1 : applySeq (c :: cs) s = applySeq cs (applyCmd c s) := rfl
      have h2 : (c :: cs).reverse ++ us = cs.reverse ++ (c :: us) := by simp
      rw [List.length_cons, undoN, h1, h2, ih (applyCmd c s) (c :: us) rs hv.2]
      simp only [cmUndo]
      rw [cmd_roundtrip c s hv.1]
      rfl

/-- Claim C2: executing any valid sequence of N commands through the command
manager and then calling `undo` N times restores the shape collection
exactly (hence in particular as a set compared by id, points and color;
the palette is not part of this state). -/
theorem undo_n_times_restores (cs : List Cmd) (h : HistState)
    (hv : ValidSeq cs h.shapes) :
    (undoN cs.length (execSeq cs h)).shapes = h.shapes := by
  obtain ⟨rs, hrs⟩ := execSeq_spec cs h
  rw [hrs, undoN_rewind cs h.shapes h.undoStack rs hv]

/-- Witness for C2: the five-command demo sequence, undone five times. -/
theorem undo_n_times_restores_witness :
    ValidSeq demoCmds demoShapes ∧
    (undoN demoCmds.length (execSeq demoCmds ⟨demoShapes, [], []⟩)).shapes
      = demoShapes :=
  ⟨by decide, undo_n_times_restores demoCmds ⟨demoShapes, [], []⟩ (by decide)⟩

/-- Claim C3: the stack discipline of `CommandManager`: `execute` applies the
command, pushes it on the undo stack and empties the redo stack (so the redo
stack is empty after any fresh execute); `undo` on a non-empty undo stack pops,
applies the inverse and pushes the popped command on the redo stack; `redo` on
a non-empty redo stack pops, re-applies and pushes on the undo stack, keeping
the rest of the redo stack; `undo`/`redo` on an empty corresponding stack are
no-ops. -/
theorem history_stack_discipline :
    (∀ (c : Cmd) (h : HistState),
        cmExecute c h = ⟨applyCmd c h.shapes, c :: h.undoStack, []⟩) ∧
    (∀ (s : List Shape) (rs : List Cmd), cmUndo ⟨s, [], rs⟩ = ⟨s, [], rs⟩) ∧
    (∀ (c : Cmd) (rest : List Cmd) (s : List Shape) (rs : List Cmd),
        cmUndo ⟨s, c :: rest, rs⟩ = ⟨undoCmd c s, rest, c :: rs⟩) ∧
    (∀ (s : List Shape) (us : List Cmd), cmRedo ⟨s, us, []⟩ = ⟨s, us, []⟩) ∧
    (∀ (c : Cmd) (rest : List Cmd) (s : List Shape) (us : List Cmd),
        cmRedo ⟨s, us, c :: rest⟩ = ⟨applyCmd c s, c :: us, rest⟩) ∧
    (∀ (c : Cmd) (h : HistState), (cmExecute c h).redoStack = []) :=
  ⟨fun _ _ => rfl, fun _ _ => rfl, fun _ _ _ _ => rfl,
   fun _ _ => rfl, fun _ _ _ _ => rfl, fun _ _ => rfl⟩

/-- Counterexample to C4 as stated: in `script.js`, `DeleteShapeCommand.undo`
splices the captured shape back at the captured index, so deleting the FIRST
of two shapes and undoing yields the original order again — the restored shape
is not the last element of the sequence. -/
theorem delete_undo_append_counterexample :
    undoCmd (Cmd.deleteShape 0 ⟨1, [], "#aa0000"⟩)
        (applyCmd (Cmd.deleteShape 0 ⟨1, [], "#aa0000"⟩)
          [⟨1, [], "#aa0000"⟩, ⟨2, [], "#00bb00"⟩])
      = [⟨1, [], "#aa0000"⟩, ⟨2, [], "#00bb00"⟩] ∧
    (undoCmd (Cmd.deleteShape 0 ⟨1, [], "#aa0000"⟩)
        (applyCmd (Cmd.deleteShape 0 ⟨1, [], "#aa0000"⟩)
          [⟨1, [], "#aa0000"⟩, ⟨2, [], "#00bb00"⟩])).getLast?
      ≠ some ⟨1, [], "#aa0000"⟩ := by
  decide

/-- Claim C4 (amended): the two source variants disagree.  In `script.js`,
`DeleteShapeCommand.undo` re-inserts the captured full shape copy at the
captured index, restoring the original sequence exactly; in the zustand store,
undoing a `deleteShape` appends the captured shape at the end, so the restored
shape is the last element there. -/
theorem delete_undo_amended :
    (∀ (shapes : List Shape) (i : ℕ) (sh : Shape), shapes[i]? = some sh →
        undoCmd (Cmd.deleteShape i sh) (applyCmd (Cmd.deleteShape i sh) shapes)
          = shapes) ∧
    (∀ (st : StoreState) (sh : Shape),
        st.shapes.find? (fun s => s.id == sh.id) = some sh →
        (storeUndo (storeDeleteShape sh.id st)).shapes
            = st.shapes.filter (fun s => !(s.id == sh.id)) ++ [sh] ∧
          ((storeUndo (storeDeleteShape sh.id st)).shapes).getLast? = some sh) := by
  constructor
  · intro shapes i sh h
    exact cmd_roundtrip (Cmd.deleteShape i sh) shapes h
  · intro st sh hfind
    have h1 : (st.undoStack ++ [UndoAction.addShapeA sh]).getLast?
        = some (UndoAction.addShapeA sh) := List.getLast?_concat _
    constructor
    · simp [storeDeleteShape, hfind, storeUndo, h1]
    · simp [storeDeleteShape, hfind, storeUndo, h1, List.getLast?_concat]

/-- Witness for the amended C4 at concrete two-shape stores. -/
theorem delete_undo_amended_witness :
    undoCmd (Cmd.deleteShape 0 ⟨1, [], "#aa0000"⟩)
        (applyCmd (Cmd.deleteShape 0 ⟨1, [], "#aa0000"⟩)
          [⟨1, [], "#aa0000"⟩, ⟨2, [], "#00bb00"⟩])
      = [⟨1, [], "#aa0000"⟩, ⟨2, [], "#00bb00"⟩] ∧
    (storeUndo (storeDeleteShape 1
        ⟨[⟨1, [], "#aa0000"⟩, ⟨2, [], "#00bb00"⟩], [], [], []⟩)).shapes
      = (⟨[⟨1, [], "#aa0000"⟩, ⟨2, [], "#00bb00"⟩], [], [], []⟩ :
          StoreState).shapes.filter (fun s => !(s.id == 1)) ++ [⟨1, [], "#aa0000"⟩] :=
  ⟨delete_undo_amended.1 [⟨1, [], "#aa0000"⟩, ⟨2, [], "#00bb00"⟩] 0
      ⟨1, [], "#aa0000"⟩ (by decide),
   (delete_undo_amended.2 ⟨[⟨1, [], "#aa0000"⟩, ⟨2, [], "#00bb00"⟩], [], [], []⟩
      ⟨1, [], "#aa0000"⟩ (by decide)).1⟩

/-- Claim C10: the store actions `deleteShape` and `fillShape` are complete
no-ops (shapes, palette, undo stack and redo stack all unchanged, no undo
action recorded) when no shape carries the requested id, and `fillShape` also
when the found shape already has the requested color. -/
theorem store_noop_on_missing_id :
    (∀ (st : StoreState) (shapeId : ℕ), (∀ sh ∈ st.shapes, sh.id ≠ shapeId) →
        storeDeleteShape shapeId st = st) ∧
    (∀ (st : StoreState) (shapeId : ℕ) (newColor : String),
        (∀ sh ∈ st.shapes, sh.id ≠ shapeId) →
        storeFillShape shapeId newColor st = st) ∧
    (∀ (st : StoreState) (shapeId : ℕ) (newColor : String) (sh : Shape),
        st.shapes.find? (fun s => s.id == shapeId) = some sh →
        sh.color = newColor →
        storeFillShape shapeId newColor st = st) := by
  refine ⟨?_, ?_, ?_⟩
  · intro st shapeId h
    have hfind : st.shapes.find? (fun s => s.id == shapeId) = none := by
      rw [List.find?_eq_none]
      intro sh hm
      simpa using h sh hm
    simp [storeDeleteShape, hfind]
  · intro st shapeId newColor h
    have hfind : st.shapes.find? (fun s => s.id == shapeId) = none := by
      rw [List.find?_eq_none]
      intro sh hm
      simpa using h sh hm
    simp [storeFillShape, hfind]
  · intro st shapeId newColor sh hfind hcol
    simp [storeFillShape, hfind, hcol]

/-- Witness for C10 at a concrete one-shape store. -/
theorem store_noop_on_missing_id_witness :
    storeDeleteShape 7 ⟨[⟨1, [], "#aa0000"⟩], ["#aa0000"], [], []⟩
        = ⟨[⟨1, [], "#aa0000"⟩], ["#aa0000"], [], []⟩ ∧
    storeFillShape 7 "#00bb00" ⟨[⟨1, [], "#aa0000"⟩], ["#aa0000"], [], []⟩
        = ⟨[⟨1, [], "#aa0000"⟩], ["#aa0000"], [], []⟩ ∧
    storeFillShape 1 "#aa0000" ⟨[⟨1, [], "#aa0000"⟩], ["#aa0000"], [], []⟩
        = ⟨[⟨1, [], "#aa0000"⟩], ["#aa0000"], [], []⟩ :=
  ⟨store_noop_on_missing_id.1 _ 7 (by decide),
   store_noop_on_missing_id.2.1 _ 7 "#00bb00" (by decide),
   store_noop_on_missing_id.2.2 _ 1 "#aa0000" ⟨1, [], "#aa0000"⟩ (by decide) rfl⟩

theorem edgeTest_horizontal (x y xi yi xj yj : ℚ) (h : yi = yj) :
    edgeTest x y xi yi xj yj = false := by
  subst h
  simp [edgeTest]

theorem bne_swap (a b : Bool) : (a != b) = (b != a) := by
  cases a <;> cases b <;> rfl

theorem edgeTest_symm (x y xi yi xj yj : ℚ) :
    edgeTest x y xi yi xj yj = edgeTest x y xj yj xi yi := by
  by_cases hy : yi = yj
  · rw [edgeTest_horizontal x y xi yi xj yj hy,
      edgeTest_horizontal x y xj yj xi yi hy.symm]
  · have h1 : yj - yi ≠ 0 := sub_ne_zero.mpr (Ne.symm hy)
    have h2 : yi - yj ≠ 0 := sub_ne_zero.mpr hy
    have hcross : (xj - xi) * (y - yi) / (yj - yi) + xi
        = (xi - xj) * (y - yj) / (yi - yj) + xj := by
      field_simp
      ring
    unfold edgeTest
    rw [hcross, bne_swap (decide (yi > y)) (decide (yj > y))]

theorem isPointInPolygon_nil (p : Pt) : isPointInPolygon p [] = false := rfl

theorem isPointInPolygon_one (p a : Pt) : isPointInPolygon p [a] = false := by
  have h : isPointInPolygon p [a]
      = (if edgeTest p.x p.y a.x a.y a.x a.y then !false else false) := rfl
  rw [h, edgeTest_horizontal p.x p.y a.x a.y a.x a.y rfl]
  rfl

theorem isPointInPolygon_two (p a b : Pt) : isPointInPolygon p [a, b] = false := by
  simp only [isPointInPolygon]
  norm_num [List.range_succ]
  rw [edgeTest_symm p.x p.y b.x b.y a.x a.y]
  cases hE : edgeTest p.x p.y a.x a.y b.x b.y <;> simp [hE]

/-- A degenerate "polygon" of at most two vertices never contains any point:
the two directed copies of the single segment register identical crossings,
so the parity is always even. -/
theorem isPointInPolygon_short (p : Pt) (poly : List Pt)
    (h : poly.length ≤ 2) : isPointInPolygon p poly = false := by
  match poly with
  | [] => exact isPointInPolygon_nil p
  | [a] => exact isPointInPolygon_one p a
  | [a, b] => exact isPointInPolygon_two p a b
  | a :: b :: c :: t => simp at h

theorem find?_ext :
    ∀ (l : List Shape) (f g : Shape → Bool), (∀ a, f a = g a) →
      l.find? f = l.find? g := by
  intro l
  induction l with
  | nil => intro f g _; rfl
  | cons a t ih =>
      intro f g h
      cases hg : g a with
      | true =>
          rw [List.find?_cons_of_pos _ (by rw [h a, hg]),
            List.find?_cons_of_pos _ hg]
      | false =>
          rw [List.find?_cons_of_neg _ (by rw [h a, hg]; exact Bool.false_ne_true),
            List.find?_cons_of_neg _ (by rw [hg]; exact Bool.false_ne_true)]
          exact ih f g h

/-- Counterexample to C5 as stated: the edit click handler does not use
polygon hit-testing — it scans for a point within `dragPointRadius` of the
click — and it can select a shape with exactly 2 points: clicking near an
endpoint of a lone 2-point polyline returns that polyline (with point
index 0). -/
theorem edit_hit_polyline_counterexample :
    findEditHit [⟨1, [⟨0, 0⟩, ⟨40, 0⟩], "#00bb00"⟩] ⟨1, 1⟩
        = some (⟨1, [⟨0, 0⟩, ⟨40, 0⟩], "#00bb00"⟩, 0) ∧
    (⟨1, [⟨0, 0⟩, ⟨40, 0⟩], "#00bb00"⟩ : Shape).points.length = 2 := by
  constructor
  · norm_num [findEditHit, pointHitIdx, dragPointRadius, List.range_succ,
      List.find?, List.findSome?]
  · rfl

/-- Claim C5 (amended): the fill and delete click handlers use the same
topmost polygon hit-test — the delete-branch scan (no explicit length guard)
agrees with the fill-branch scan (explicit `points.length > 2` guard),
because a shape with at most two points can never pass `isPointInPolygon`, so
any shape returned there has more than two points, contains the click, and is
the first such shape in reverse insertion order.  The edit click handler does
not use polygon hit-testing: it returns the topmost shape with a point within
`dragPointRadius` of the click (2-point polylines included), with no
`isPointInPolygon` call. -/
theorem topmost_hit_test (shapes : List Shape) (p : Pt) :
    (findTopmostDelete shapes p = findTopmostFill shapes p ∧
      (∀ sh : Shape, findTopmostDelete shapes p = some sh →
        2 < sh.points.length ∧ isPointInPolygon p sh.points = true)) ∧
    (∀ (sh : Shape) (j : ℕ), findEditHit shapes p = some (sh, j) →
      sh ∈ shapes ∧ ∃ pt : Pt, sh.points[j]? = some pt ∧
        (p.x - pt.x) * (p.x - pt.x) + (p.y - pt.y) * (p.y - pt.y)
          < dragPointRadius * dragPointRadius) := by
  refine ⟨⟨?_, ?_⟩, ?_⟩
  · unfold findTopmostDelete findTopmostFill
    refine find?_ext _ _ _ (fun sh => ?_)
    by_cases hl : 2 < sh.points.length
    · simp [hl]
    · rw [isPointInPolygon_short p sh.points (Nat.le_of_not_lt hl)]
      simp
  · intro sh hfind
    have hpred := List.find?_some hfind
    refine ⟨?_, hpred⟩
    by_contra hlen
    rw [isPointInPolygon_short p sh.points (Nat.le_of_not_lt hlen)] at hpred
    exact Bool.false_ne_true hpred
  · intro sh j hfind
    unfold findEditHit at hfind
    obtain ⟨sh0, hmem, hf⟩ := List.exists_of_findSome?_eq_some hfind
    obtain ⟨j0, hj0, hpair⟩ := Option.map_eq_some'.mp hf
    have hsh : sh0 = sh := congrArg Prod.fst hpair
    have hj : j0 = j := congrArg Prod.snd hpair
    subst hsh
    subst hj
    refine ⟨List.mem_reverse.mp hmem, ?_⟩
    have hjlt : j0 < sh0.points.length :=
      List.mem_range.mp (List.mem_of_find?_eq_some hj0)
    have hpred := List.find?_some hj0
    simp only [decide_eq_true_eq] at hpred
    have hg : sh0.points.getD j0 ⟨0, 0⟩ = sh0.points[j0] :=
      List.getD_eq_getElem sh0.points ⟨0, 0⟩ hjlt
    refine ⟨sh0.points[j0], List.getElem?_eq_getElem hjlt, ?_⟩
    rw [← hg]
    exact hpred

/-- Witness for C5: a scene with a 2-point polyline drawn on top of a
triangle; the hit test skips the polyline and returns the triangle. -/
theorem topmost_hit_test_witness :
    findTopmostDelete
        [⟨1, [⟨0, 0⟩, ⟨4, 0⟩, ⟨0, 4⟩], "#aa0000"⟩, ⟨2, [⟨0, 0⟩, ⟨4, 4⟩], "#00bb00"⟩]
        ⟨1, 1⟩
      = some ⟨1, [⟨0, 0⟩, ⟨4, 0⟩, ⟨0, 4⟩], "#aa0000"⟩ ∧
    2 < (⟨1, [⟨0, 0⟩, ⟨4, 0⟩, ⟨0, 4⟩], "#aa0000"⟩ : Shape).points.length := by
  have hfind : findTopmostDelete
      [⟨1, [⟨0, 0⟩, ⟨4, 0⟩, ⟨0, 4⟩], "#aa0000"⟩, ⟨2, [⟨0, 0⟩, ⟨4, 4⟩], "#00bb00"⟩]
      ⟨1, 1⟩
      = some ⟨1, [⟨0, 0⟩, ⟨4, 0⟩, ⟨0, 4⟩], "#aa0000"⟩ := by
    norm_num [findTopmostDelete, isPointInPolygon, edgeTest, List.range_succ,
      List.find?]
  have h := (topmost_hit_test
    [⟨1, [⟨0, 0⟩, ⟨4, 0⟩, ⟨0, 4⟩], "#aa0000"⟩, ⟨2, [⟨0, 0⟩, ⟨4, 4⟩], "#00bb00"⟩]
    ⟨1, 1⟩).1.2 ⟨1, [⟨0, 0⟩, ⟨4, 0⟩, ⟨0, 4⟩], "#aa0000"⟩ hfind
  exact ⟨hfind, h.1⟩

/-- Claim C8: `isPointInPolygon` is total (always returns a boolean), and a
degenerate horizontal edge (`yi == yj`) never registers a crossing — the
division by `yj - yi` sits behind the strict straddle guard, which is false
exactly when a crossing would divide by zero. -/
theorem point_in_polygon_no_div_by_zero :
    (∀ x y xi yi xj yj : ℚ, yi = yj → edgeTest x y xi yi xj yj = false) ∧
    (∀ x y xi yi xj yj : ℚ, edgeTest x y xi yi xj yj = true → yi ≠ yj) ∧
    (∀ (p : Pt) (poly : List Pt),
      isPointInPolygon p poly = true ∨ isPointInPolygon p poly = false) := by
  refine ⟨edgeTest_horizontal, ?_, ?_⟩
  · intro x y xi yi xj yj h he
    rw [edgeTest_horizontal x y xi yi xj yj he] at h
    exact Bool.false_ne_true h
  · intro p poly
    cases isPointInPolygon p poly
    · right; rfl
    · left; rfl

/-- Witness for C8: a concrete horizontal edge registers no crossing even for
a query point at the edge's y-level. -/
theorem point_in_polygon_no_div_by_zero_witness :
    edgeTest 1 5 0 5 10 5 = false :=
  point_in_polygon_no_div_by_zero.1 1 5 0 5 10 5 rfl

/-- Claim C6: while drawing, a click closes the current shape (emitting
exactly the placed points, excluding the closing click, and leaving drawing
mode) if and only if at least three points are placed and the squared
distance to the first point is below `(1.5 * dragPointRadius)^2`; with
exactly two points placed a click never closes the shape. -/
theorem drawing_close_iff (color : String) (st : DrawState) (c : Pt)
    (h : st.isDrawing = true) :
    (((handleDrawClick color st c).2
        = DrawEffect.addShape st.currentShapePoints color ∧
      (handleDrawClick color st c).1.isDrawing = false) ↔
      (3 ≤ st.currentShapePoints.length ∧
        (c.x - (st.currentShapePoints.headD ⟨0, 0⟩).x) *
            (c.x - (st.currentShapePoints.headD ⟨0, 0⟩).x) +
          (c.y - (st.currentShapePoints.headD ⟨0, 0⟩).y) *
            (c.y - (st.currentShapePoints.headD ⟨0, 0⟩).y)
          < closeToleranceSq)) ∧
    (st.currentShapePoints.length = 2 →
      (handleDrawClick color st c).2 = DrawEffect.noEffect) := by
  unfold handleDrawClick
  rw [h]
  simp only [Bool.not_true, Bool.false_eq_true, if_false]
  by_cases hP : (c.x - (st.currentShapePoints.head?.getD ⟨0, 0⟩).x) *
        (c.x - (st.currentShapePoints.head?.getD ⟨0, 0⟩).x) +
      (c.y - (st.currentShapePoints.head?.getD ⟨0, 0⟩).y) *
        (c.y - (st.currentShapePoints.head?.getD ⟨0, 0⟩).y) < closeToleranceSq <;>
    by_cases hL : 3 ≤ st.currentShapePoints.length <;>
    simp [hP, hL, h, apply_ite]
  all_goals omega

/-- Witness for C6: a three-point shape in progress, closed by a click at
squared distance 25 from the start. -/
theorem drawing_close_iff_witness :
    (handleDrawClick "#000000"
        ⟨true, [⟨0, 0⟩, ⟨20, 10⟩, ⟨5, 40⟩]⟩ ⟨3, 4⟩).2
      = DrawEffect.addShape [⟨0, 0⟩, ⟨20, 10⟩, ⟨5, 40⟩] "#000000" := by
  have h := (drawing_close_iff "#000000"
      ⟨true, [⟨0, 0⟩, ⟨20, 10⟩, ⟨5, 40⟩]⟩ ⟨3, 4⟩ rfl).1.mpr
    ⟨by norm_num, by norm_num [closeToleranceSq, dragPointRadius]⟩
  exact h.1

theorem nodup_importStep (acc : List Shape) (sh : Shape)
    (h : (shapeIds acc).Nodup) : (shapeIds (importStep acc sh)).Nodup := by
  unfold importStep
  split
  · exact h
  · rename_i hany
    rw [shapeIds_append]
    refine (List.perm_append_singleton _ _).nodup_iff.mpr ?_
    rw [List.nodup_cons]
    refine ⟨fun hc => hany ?_, h⟩
    simp only [List.any_eq_true, decide_eq_true_eq]
    obtain ⟨e, he, heq⟩ := List.mem_map.mp (by simpa [shapeIds] using hc)
    exact ⟨e, he, heq⟩

theorem nodup_foldl_importStep :
    ∀ (batch acc : List Shape), (shapeIds acc).Nodup →
      (shapeIds (batch.foldl importStep acc)).Nodup := by
  intro batch
  induction batch with
  | nil => intro acc h; exact h
  | cons b rest ih =>
      intro acc h
      exact ih (importStep acc b) (nodup_importStep acc b h)

/-- Claim C9: `ImportShapesCommand.execute` is idempotent on the shape
collection — each batch shape is guarded by an id-existence check, so a second
execution adds nothing — and it never introduces duplicate ids into a
collection whose ids are distinct. -/
theorem import_execute_idempotent :
    (∀ (batch s : List Shape),
        applyCmd (Cmd.importShapes batch) (applyCmd (Cmd.importShapes batch) s)
          = applyCmd (Cmd.importShapes batch) s) ∧
    (∀ (batch s : List Shape), (shapeIds s).Nodup →
        (shapeIds (applyCmd (Cmd.importShapes batch) s)).Nodup) := by
  constructor
  · intro batch s
    simp only [applyCmd]
    exact foldl_importStep_noop batch _
      (fun sh hm => batch_ids_mem_foldl batch s sh hm)
  · intro batch s hnd
    simp only [applyCmd]
    exact nodup_foldl_importStep batch s hnd

/-- Witness for C9: a two-shape batch (one id colliding with the store,
one fresh) imported twice over a one-shape store. -/
theorem import_execute_idempotent_witness :
    applyCmd (Cmd.importShapes [⟨1, [], "#00bb00"⟩, ⟨3, [], "#aa0000"⟩])
        (applyCmd (Cmd.importShapes [⟨1, [], "#00bb00"⟩, ⟨3, [], "#aa0000"⟩])
          [⟨1, [], "#000000"⟩])
      = applyCmd (Cmd.importShapes [⟨1, [], "#00bb00"⟩, ⟨3, [], "#aa0000"⟩])
          [⟨1, [], "#000000"⟩] ∧
    (shapeIds (applyCmd (Cmd.importShapes [⟨1, [], "#00bb00"⟩, ⟨3, [], "#aa0000"⟩])
        [⟨1, [], "#000000"⟩])).Nodup :=
  ⟨import_execute_idempotent.1 [⟨1, [], "#00bb00"⟩, ⟨3, [], "#aa0000"⟩]
      [⟨1, [], "#000000"⟩],
   import_execute_idempotent.2 [⟨1, [], "#00bb00"⟩, ⟨3, [], "#aa0000"⟩]
      [⟨1, [], "#000000"⟩] (by decide)⟩

theorem parsePairPoint_snapped (pf : String → Option ℚ) (cfg : IsoConfig)
    (pair : String) (p : Pt) (h : parsePairPoint pf cfg pair = some p) :
    ∃ gx gy : ℤ, p = gridToScreen cfg gx gy := by
  simp only [parsePairPoint] at h
  cases hx : pf ((jsSplitComma pair).getD 0 "") with
  | none => rw [hx] at h; simp at h
  | some x =>
      cases hy : pf ((jsSplitComma pair).getD 1 "") with
      | none => rw [hx, hy] at h; simp at h
      | some y =>
          rw [hx, hy] at h
          simp only [Option.some_inj] at h
          exact ⟨(screenToNearestGridPoint cfg x y).1,
            (screenToNearestGridPoint cfg x y).2, h.symm⟩

theorem parseSVGShape_spec (pf : String → Option ℚ) (cfg : IsoConfig)
    (el : SvgElement) (sh : ParsedShape) (h : parseSVGShape pf cfg el = some sh) :
    2 ≤ sh.points.length ∧ sh.color = elementColor el ∧
      ∀ p ∈ sh.points, ∃ gx gy : ℤ, p = gridToScreen cfg gx gy := by
  simp only [parseSVGShape] at h
  split at h
  · simp at h
  · rename_i raw heq
    by_cases he : (jsTrim raw).data = []
    · rw [if_pos he] at h; simp at h
    · rw [if_neg he] at h
      by_cases hl : ((jsSplitWhitespace (jsTrim raw)).filterMap
          (parsePairPoint pf cfg)).length > 1
      · rw [if_pos hl] at h
        simp only [Option.some_inj] at h
        subst h
        refine ⟨hl, rfl, ?_⟩
        intro p hp2
        obtain ⟨tok, _, hparse⟩ := List.mem_filterMap.mp hp2
        exact parsePairPoint_snapped pf cfg tok p hparse
      · rw [if_neg hl] at h; simp at h

/-- Claim C7: SVG import is total on the embedded element scan — for every
element list it yields a (possibly empty) list of `{points, color}` shapes in
which every kept shape has at least two points, every kept point is the
grid-round-trip snap of some parsed coordinate (an image of `gridToScreen`),
the color follows the `fill`/`stroke`/black fallback, and when no element
survives the result is the empty list rather than a failure. -/
theorem svg_import_total (pf : String → Option ℚ) (cfg : IsoConfig)
    (els : List SvgElement) :
    (∀ sh ∈ parseSVGContent pf cfg els,
        2 ≤ sh.points.length ∧
        (∀ p ∈ sh.points, ∃ gx gy : ℤ, p = gridToScreen cfg gx gy) ∧
        ∃ el ∈ els, parseSVGShape pf cfg el = some sh ∧ sh.color = elementColor el) ∧
    ((∀ el ∈ els, parseSVGShape pf cfg el = none) →
      parseSVGContent pf cfg els = []) := by
  constructor
  · intro sh hm
    obtain ⟨el, hel, hsome⟩ := List.mem_filterMap.mp hm
    obtain ⟨h1, h2, h3⟩ := parseSVGShape_spec pf cfg el sh hsome
    exact ⟨h1, h3, el, hel, hsome, h2⟩
  · intro hall
    unfold parseSVGContent
    rw [List.filterMap_eq_nil_iff]
    exact hall

/-- Witness for C7: an element with no `points` attribute and one whose
`points` trims to the empty string survive as an empty import, not an
error. -/
theorem svg_import_total_witness :
    parseSVGContent (fun _ => none) ⟨400, 300, 26, 15⟩
      [⟨none, none, none⟩, ⟨some " ", some "#ff0000", none⟩] = [] :=
  (svg_import_total (fun _ => none) ⟨400, 300, 26, 15⟩
    [⟨none, none, none⟩, ⟨some " ", some "#ff0000", none⟩]).2 (by decide)

end Isodraw


